import Mathlib

/-!
# Verification of the stcwallet transaction-construction and custody core

Shallow embedding of the transaction-construction code (`wallet/createtx.go`),
the outpoint lock set, the confirmation arithmetic and the wallet-locker state
machine (`wallet.go`), together with theorems settling the specification claims.

Conventions of the embedding:
* `coinutil.Amount` (an `int64`) is modelled as `Int`; the values involved in
  all claims are far below 2^63, so wrap-around is not modelled.
* Byte strings (scripts) are modelled as `List Nat`.
* External collaborators (address decoding, script building, script
  extraction, the address manager, the signer, the verify engine, the
  change-address factory and the randomness source of `addChange`) are
  supplied through an explicit `Env` record, mirroring the Go interfaces.
* A Go `panic` (the unchecked interface assertion in `signMsgTx`) is a
  distinct outcome constructor, not an error return.
* The unbounded `for {}` fee-convergence loop is indexed by fuel; the
  termination theorem shows the fuel marker is unreachable for an explicit
  fuel bound.
-/

namespace Stcwallet

abbrev Amount := Int

abbrev Script := List Nat

/-- `wire.OutPoint`: pair (txid, output index); equality by both fields. -/
structure OutPoint where
  hash : Nat
  index : Nat
deriving DecidableEq, Repr

/-- `wtxmgr.Credit`: an unspent output known to the wallet (the fields used
by `createtx.go`). -/
structure Credit where
  outPoint : OutPoint
  amount : Amount
  pkScript : Script
  height : Int
  fromCoinBase : Bool
deriving DecidableEq, Repr

/-- `wire.TxOut`. -/
structure TxOut where
  value : Amount
  pkScript : Script
deriving DecidableEq, Repr

/-- `wire.TxIn` (the fields relevant here: previous outpoint and the
signature script). -/
structure TxIn where
  prevOut : OutPoint
  sigScript : Script
deriving DecidableEq, Repr

/-- `wire.MsgTx` (input and output lists; version and locktime are constants
that only contribute fixed bytes to the serialized size). -/
structure MsgTx where
  txIn : List TxIn
  txOut : List TxOut
deriving DecidableEq, Repr

/-- Size of a Bitcoin variable-length integer encoding `n`. -/
def varIntSerializeSize (n : Nat) : Nat :=
  if n < 253 then 1 else if n < 65536 then 3 else if n < 4294967296 then 5 else 9

/-- Serialized size of a transaction input: 32-byte hash, 4-byte index,
varint plus script bytes, 4-byte sequence. -/
def txInSerializeSize (ti : TxIn) : Nat :=
  32 + 4 + 4 + varIntSerializeSize ti.sigScript.length + ti.sigScript.length

/-- Serialized size of a transaction output: 8-byte value, varint plus
script bytes. -/
def txOutSerializeSize (o : TxOut) : Nat :=
  8 + varIntSerializeSize o.pkScript.length + o.pkScript.length

/-- `wire.MsgTx.SerializeSize`: 4-byte version, 4-byte locktime, the two
count varints, and the inputs and outputs. -/
def MsgTx.serializeSize (tx : MsgTx) : Nat :=
  8 + varIntSerializeSize tx.txIn.length + varIntSerializeSize tx.txOut.length
    + (tx.txIn.map txInSerializeSize).sum + (tx.txOut.map txOutSerializeSize).sum

/-! ## Constants of `createtx.go` -/

/-- 4 bytes version, 4 bytes locktime, 2 varints. -/
def txOverheadEstimate : Nat := 4 + 4 + 1 + 1

/-- Best-case P2PKH signature script estimate. -/
def sigScriptEstimate : Nat := 1 + 70 + 1 + 33 + 1

/-- Best-case input serialization estimate. -/
def txInEstimate : Nat := 32 + 4 + 4 + sigScriptEstimate

/-- P2PKH pkScript size. -/
def pkScriptEstimate : Nat := 1 + 1 + 1 + 20 + 1 + 1

/-- Best-case output serialization estimate. -/
def txOutEstimate : Nat := 8 + 1 + pkScriptEstimate

/-- `estimateTxSize` from `createtx.go`. -/
def estimateTxSize (numInputs numOutputs : Nat) : Nat :=
  txOverheadEstimate + txInEstimate * numInputs + txOutEstimate * numOutputs

/-- `feeForSize`: `Amount(1+sz/1000) * incr` (Go integer division; `sz` is a
non-negative size). -/
def feeForSize (incr : Amount) (sz : Nat) : Amount :=
  (1 + (sz : Int) / 1000) * incr

/-- `coinutil.SatoshiPerBitcent`. -/
def satoshiPerBitcent : Amount := 1000000

/-- `coinutil.SatoshiPerBitcoin`. -/
def satoshiPerBitcoin : Amount := 100000000

/-- `coinutil.MaxSatoshi` (21e6 BTC in satoshi). -/
def maxSatoshi : Amount := 21000000 * 100000000

/-- `defaultFeeIncrement` (1e3 satoshi). -/
def defaultFeeIncrement : Amount := 1000

/-- `chainDepth` from `createtx.go`: 0 for unmined (−1), else
`current − target + 1`. -/
def chainDepth (target current : Int) : Int :=
  if target = -1 then 0 else current - target + 1

/-- `allowNoFeeTx`: the priority test.  The source computes
`priority = float64(weightedSum)/float64(txSize)` and compares against the
float constant `1e8 * 144.0 / 250.0 = 57600000` (exactly representable);
here the comparison is expressed exactly over the integers as
`weightedSum * 250 > 1e8 * 144 * txSize`, which agrees with the float
comparison for all magnitudes occurring in the claims (both sides below
2^53), including `txSize = 0` (where the float quotient is `±inf`/NaN). -/
def allowNoFeeTx (curHeight : Int) (txouts : List Credit) (txSize : Nat) : Bool :=
  let weightedSum := (txouts.map (fun c => c.amount * chainDepth c.height curHeight)).sum
  weightedSum * 250 > 100000000 * 144 * (txSize : Int)

/-- `minimumFee` from `createtx.go`, translated statement by statement.
Note the source's control flow: the sub-bitcent branch `return incr` exits
before the final clamp, and the final clamp sends both a negative fee and a
fee above `MaxSatoshi` to `MaxSatoshi`. -/
def minimumFee (incr : Amount) (txLen : Nat) (outputs : List TxOut)
    (prevOutputs : List Credit) (height : Int) (disallowFree : Bool) : Amount :=
  let allowFree := if disallowFree then false else allowNoFeeTx height prevOutputs txLen
  let fee := feeForSize incr txLen
  let fee := if allowFree && txLen < 1000 then 0 else fee
  if fee < incr && outputs.any (fun o => o.value < satoshiPerBitcent) then
    incr
  else if fee < 0 || fee > maxSatoshi then
    maxSatoshi
  else
    fee

/-! ## Confirmation arithmetic (`wallet.go`) -/

/-- `confirms` from `wallet.go`: number of confirmations of a transaction at
height `txHeight` (−1 for unmined) given chain height `curHeight`.  Heights
are `int32` in the source; chain heights are tiny compared to 2^31, so
wrap-around is not modelled. -/
def confirms (txHeight curHeight : Int) : Int :=
  if txHeight = -1 || txHeight > curHeight then 0 else curHeight - txHeight + 1

/-- `confirmed` from `wallet.go`. -/
def confirmed (minconf txHeight curHeight : Int) : Bool :=
  decide (confirms txHeight curHeight ≥ minconf)

/-! ## Outpoint lock set (`wallet.go`) -/

/-- The `lockedOutpoints` map of the wallet, modelled by its membership
function (the map's values are the empty struct). -/
def LockSet := OutPoint → Bool

/-- `Wallet.LockedOutpoint`. -/
def LockedOutpoint (s : LockSet) (op : OutPoint) : Bool := s op

/-- `Wallet.LockOutpoint`. -/
def LockOutpoint (s : LockSet) (op : OutPoint) : LockSet :=
  fun op' => if op' = op then true else s op'

/-- `Wallet.UnlockOutpoint` (map `delete`). -/
def UnlockOutpoint (s : LockSet) (op : OutPoint) : LockSet :=
  fun op' => if op' = op then false else s op'

/-- `Wallet.ResetLockedOutpoints` (assigns a fresh empty map). -/
def ResetLockedOutpoints : LockSet := fun _ => false

/-! ## Addresses, script classes and the external environment -/

/-- `coinutil.Address` values as they matter to `signMsgTx`: the dynamic
type distinguishes `*AddressPubKeyHash` from the other address kinds. -/
inductive Addr where
  | pubKeyHash (h : Nat)
  | pubKey (k : Nat)
  | scriptHash (h : Nat)
deriving DecidableEq, Repr

/-- `txscript.ScriptClass` (the classes relevant to this core). -/
inductive ScriptClass where
  | pubKeyHashTy
  | pubKeyTy
  | scriptHashTy
  | multiSigTy
  | nonStandardTy
deriving DecidableEq, Repr

/-- A managed address returned by `waddrmgr.Manager.Address`.  A key-bearing
(`ManagedPubKeyAddress`) entry carries the result of `PrivKey()` (which can
fail, e.g. when locked) and the `Compressed()` flag; any other managed
address does not satisfy the `ManagedPubKeyAddress` interface. -/
inductive MgdAddr where
  | keyBearing (privKey : Except String Nat) (compressed : Bool)
  | scriptOnly (s : Script)
deriving Repr

/-- The external collaborators consumed by the build pipeline, mirrored as
explicit functions: `coinutil.DecodeAddress`, `txscript.PayToAddrScript`,
`txscript.ExtractPkScriptAddrs`, `waddrmgr.Manager.Address`,
`txscript.SignatureScript`, the verify engine, the change-address factory
passed to `createTx`, and the PRNG used by `addChange` (`randPick n` models
`rand.Int31n n`; it is reduced `mod n` so that the model is total, matching
`Int31n`'s contract of a value in `[0, n)`). -/
structure Env where
  decodeAddress : String → Except String Addr
  payToAddrScript : Addr → Except String Script
  extractPkScriptAddrs : Script → ScriptClass × List Addr
  mgrAddress : Addr → Except String MgdAddr
  signatureScript : MsgTx → Nat → Script → Bool → Nat → Except String Script
  verifyInput : Script → MsgTx → Nat → Except String Unit
  newChangeAddress : Nat → Except String Addr
  randPick : Nat → Nat

/-- Errors returned by the build pipeline. -/
inductive TxErr where
  | insufficientFunds (inAmt outAmt fee : Amount)
  | nonPositiveAmount
  | unsupportedTransactionType
  | other (msg : String)
deriving DecidableEq, Repr

/-- Outcome of straight-line code: a value, an error return, or a Go
runtime panic (from an unchecked interface assertion or slice index). -/
inductive Res (α : Type) where
  | ok (a : α)
  | err (e : TxErr)
  | panicked
deriving Repr, DecidableEq

/-- Outcome of the fuel-indexed build pipeline: as `Res` plus the marker of
fuel exhaustion of the model (never reached by the real loop; see the
termination theorem). -/
inductive LoopRes (α : Type) where
  | ok (a : α)
  | err (e : TxErr)
  | panicked
  | fuelOut
deriving Repr, DecidableEq

/-! ## `signMsgTx` and `validateMsgTx` -/

/-- Overwrite input `i`'s signature script (Go
`msgtx.TxIn[i].SignatureScript = sigscript`). -/
def MsgTx.setSigScript (tx : MsgTx) (i : Nat) (sig : Script) : MsgTx :=
  { tx with txIn := tx.txIn.set i ⟨(tx.txIn.getD i ⟨⟨0, 0⟩, []⟩).prevOut, sig⟩ }

/-- The body of the `for i, output := range prevOutputs` loop of
`signMsgTx`.  An input whose script does not extract exactly one address is
skipped (`continue`); a single extracted address that is not an
`*AddressPubKeyHash` yields `ErrUnsupportedTransactionType`; a managed
address that does not satisfy `ManagedPubKeyAddress` hits the unchecked
interface assertion `ai.(waddrmgr.ManagedPubKeyAddress)` and panics. -/
def signInputs (env : Env) (msgtx : MsgTx) : List (Nat × Credit) → Res MsgTx
  | [] => .ok msgtx
  | (i, output) :: rest =>
    match (env.extractPkScriptAddrs output.pkScript).2 with
    | [a] =>
      match a with
      | .pubKeyHash h =>
        match env.mgrAddress (.pubKeyHash h) with
        | .error e => .err (.other ("cannot get address info: " ++ e))
        | .ok (.keyBearing privRes compressed) =>
          match privRes with
          | .error e => .err (.other ("cannot get private key: " ++ e))
          | .ok privkey =>
            match env.signatureScript msgtx i output.pkScript compressed privkey with
            | .error e => .err (.other ("cannot create sigscript: " ++ e))
            | .ok sigscript => signInputs env (msgtx.setSigScript i sigscript) rest
        | .ok (.scriptOnly _) => .panicked
      | _ => .err .unsupportedTransactionType
    | _ => signInputs env msgtx rest

/-- `signMsgTx` from `createtx.go`. -/
def signMsgTx (env : Env) (msgtx : MsgTx) (prevOutputs : List Credit) : Res MsgTx :=
  if prevOutputs.length ≠ msgtx.txIn.length then
    .err (.other "prevOutputs count does not match tx input count")
  else
    signInputs env msgtx prevOutputs.enum

/-- The per-input loop of `validateMsgTx`; indexing `prevOutputs[i]` out of
range is a Go panic. -/
def validateLoop (env : Env) (msgtx : MsgTx) (prevOutputs : List Credit) :
    List Nat → Res Unit
  | [] => .ok ()
  | i :: rest =>
    match prevOutputs.get? i with
    | none => .panicked
    | some c =>
      match env.verifyInput c.pkScript msgtx i with
      | .error e => .err (.other ("cannot validate transaction: " ++ e))
      | .ok () => validateLoop env msgtx prevOutputs rest

/-- `validateMsgTx` from `createtx.go`. -/
def validateMsgTx (env : Env) (msgtx : MsgTx) (prevOutputs : List Credit) : Res Unit :=
  validateLoop env msgtx prevOutputs (List.range msgtx.txIn.length)

/-! ## Output and change construction -/

/-- `addOutputs`: the pay-list is modelled as an association list (Go
iterates a map in unspecified order; the list fixes one order).  Returns the
extended transaction and the total output amount `minAmount`. -/
def addOutputs (env : Env) (msgtx : MsgTx) (minAmount : Amount) :
    List (String × Amount) → Res (MsgTx × Amount)
  | [] => .ok (msgtx, minAmount)
  | (addrStr, amt) :: rest =>
    if amt ≤ 0 then .err .nonPositiveAmount
    else
      match env.decodeAddress addrStr with
      | .error e => .err (.other ("cannot decode address: " ++ e))
      | .ok addr =>
        match env.payToAddrScript addr with
        | .error e => .err (.other ("cannot create txout script: " ++ e))
        | .ok pkScript =>
          addOutputs env { msgtx with txOut := msgtx.txOut ++ [⟨amt, pkScript⟩] }
            (minAmount + amt) rest

/-- `addChange`: append the change output, then swap it with a random index
`r` in `[0, n)` and return `r`. -/
def addChange (env : Env) (msgtx : MsgTx) (change : Amount) (changeAddr : Addr) :
    Res (MsgTx × Nat) :=
  match env.payToAddrScript changeAddr with
  | .error e => .err (.other ("cannot create txout script: " ++ e))
  | .ok pkScript =>
    let outs := msgtx.txOut ++ [⟨change, pkScript⟩]
    let n := outs.length
    let r := env.randPick n % n
    let c := n - 1
    let outs := (outs.set r (outs.getD c ⟨0, []⟩)).set c (outs.getD r ⟨0, []⟩)
    .ok ({ msgtx with txOut := outs }, r)

/-! ## Input selection -/

/-- Descending insertion by amount. -/
def insertDesc (c : Credit) : List Credit → List Credit
  | [] => [c]
  | x :: xs => if x.amount < c.amount then c :: x :: xs else x :: insertDesc c xs

/-- `sort.Sort(sort.Reverse(ByAmount(eligible)))`: sort by amount,
descending.  Go's sort is unstable, so the order among equal amounts is
unspecified; this model fixes one (insertion-sort) order. -/
def sortEligible : List Credit → List Credit
  | [] => []
  | x :: xs => insertDesc x (sortEligible xs)

/-- The state threaded through input selection and the convergence loop. -/
structure SelState where
  msgtx : MsgTx
  inputs : List Credit
  eligible : List Credit
  totalAdded : Amount
  szEst : Nat
  feeEst : Amount
deriving Repr

/-- The first selection loop of `createTx`: pop eligible credits until
`totalAdded ≥ minAmount`, failing with `InsufficientFundsError{totalAdded,
minAmount, 0}` when the eligible list drains. -/
def selectBase (minAmount : Amount) (msgtx : MsgTx) (inputs : List Credit)
    (totalAdded : Amount) :
    List Credit → Res (MsgTx × List Credit × List Credit × Amount)
  | [] =>
    if totalAdded < minAmount then .err (.insufficientFunds totalAdded minAmount 0)
    else .ok (msgtx, inputs, [], totalAdded)
  | input :: rest =>
    if totalAdded < minAmount then
      selectBase minAmount { msgtx with txIn := msgtx.txIn ++ [⟨input.outPoint, []⟩] }
        (inputs ++ [input]) (totalAdded + input.amount) rest
    else .ok (msgtx, inputs, input :: rest, totalAdded)

/-- The fee-replenishment loop (`for totalAdded < minAmount+feeEst`): pop a
credit, extend the transaction, bump the size estimate, and recompute the
fee estimate with `minimumFee`; fail with `InsufficientFundsError{totalAdded,
minAmount, feeEst}` when the eligible list drains. -/
def replenish (env : Env) (bsHeight : Int) (incr : Amount) (disallowFree : Bool)
    (minAmount : Amount) (msgtx : MsgTx) (inputs : List Credit)
    (totalAdded : Amount) (szEst : Nat) (feeEst : Amount) :
    List Credit → Res SelState
  | [] =>
    if totalAdded < minAmount + feeEst then
      .err (.insufficientFunds totalAdded minAmount feeEst)
    else .ok ⟨msgtx, inputs, [], totalAdded, szEst, feeEst⟩
  | input :: rest =>
    if totalAdded < minAmount + feeEst then
      let msgtx := { msgtx with txIn := msgtx.txIn ++ [⟨input.outPoint, []⟩] }
      let inputs := inputs ++ [input]
      let szEst := szEst + txInEstimate
      let totalAdded := totalAdded + input.amount
      let feeEst := minimumFee incr szEst msgtx.txOut inputs bsHeight disallowFree
      replenish env bsHeight incr disallowFree minAmount msgtx inputs totalAdded
        szEst feeEst rest
    else .ok ⟨msgtx, inputs, input :: rest, totalAdded, szEst, feeEst⟩

/-! ## The fee-convergence loop and `createTx` -/

/-- What the convergence loop hands back on `break`. -/
structure LoopOut where
  msgtx : MsgTx
  inputs : List Credit
  changeAddr : Option Addr
  changeIdx : Int
deriving Repr

/-- `CreatedTx`. -/
structure CreatedTx where
  msgTx : MsgTx
  changeAddr : Option Addr
  changeIndex : Int
deriving Repr, DecidableEq

/-- One-step lift of straight-line results into the loop result type. -/
def Res.toLoop : Res α → LoopRes α
  | .ok a => .ok a
  | .err e => .err e
  | .panicked => .panicked

/-- The change-adding phase at the top of each loop iteration: when
`change = totalAdded − minAmount − feeEst` is positive, obtain the change
address (lazily, once) and run `addChange`; otherwise the transaction, the
cached change address and the (possibly stale) change index pass through
unchanged. -/
def changePhase (env : Env) (account : Nat) (minAmount : Amount) (st : SelState)
    (changeAddr0 : Option Addr) (changeIdx0 : Int) : Res (MsgTx × Option Addr × Int) :=
  if st.totalAdded - minAmount - st.feeEst > 0 then
    match (match changeAddr0 with
           | some a => Except.ok a
           | none => env.newChangeAddress account) with
    | .error e => .err (.other e)
    | .ok caddr =>
      match addChange env st.msgtx (st.totalAdded - minAmount - st.feeEst) caddr with
      | .ok (m, r) => .ok (m, some caddr, (r : Int))
      | .err e => .err e
      | .panicked => .panicked
  else .ok (st.msgtx, changeAddr0, changeIdx0)

/-- The change-output removal before retrying with a higher fee: performed
exactly when this iteration added a change output (`change > 0`), at the
index recorded by `addChange`. -/
def removeChange (msgtx : MsgTx) (change : Amount) (changeIdx : Int) : MsgTx :=
  if change > 0 then { msgtx with txOut := msgtx.txOut.eraseIdx changeIdx.toNat }
  else msgtx

/-- The `for {}` fee-convergence loop of `createTx`, one fuel unit per
iteration.  `changeAddr0` is the lazily-created change address,
`changeIdx0` the Go `changeIdx` variable (−1 until a change output is first
added; note that it is *not* reset when a later iteration adds no change
output). -/
def convergeLoop (env : Env) (bsHeight : Int) (incr : Amount) (disallowFree : Bool)
    (account : Nat) (minAmount : Amount) :
    Nat → SelState → Option Addr → Int → LoopRes LoopOut
  | 0, _, _, _ => .fuelOut
  | fuel + 1, st, changeAddr0, changeIdx0 =>
    match changePhase env account minAmount st changeAddr0 changeIdx0 with
    | .err e => .err e
    | .panicked => .panicked
    | .ok (msgtx1, changeAddr1, changeIdx1) =>
      match signMsgTx env msgtx1 st.inputs with
      | .err e => .err e
      | .panicked => .panicked
      | .ok msgtx2 =>
        if feeForSize incr msgtx2.serializeSize ≤ st.feeEst then
          .ok ⟨msgtx2, st.inputs, changeAddr1, changeIdx1⟩
        else
          match replenish env bsHeight incr disallowFree minAmount
              (removeChange msgtx2 (st.totalAdded - minAmount - st.feeEst) changeIdx1)
              st.inputs st.totalAdded st.szEst (st.feeEst + incr) st.eligible with
          | .err e => .err e
          | .panicked => .panicked
          | .ok st2 =>
            convergeLoop env bsHeight incr disallowFree account minAmount fuel st2
              changeAddr1 changeIdx1

/-- `createTx` from `createtx.go`: output construction, descending sort,
initial selection, fee estimation, replenishment, the convergence loop, and
final validation. -/
def createTx (env : Env) (eligible : List Credit) (outputs : List (String × Amount))
    (bsHeight : Int) (feeIncrement : Amount) (account : Nat) (disallowFree : Bool)
    (fuel : Nat) : LoopRes CreatedTx :=
  match addOutputs env ⟨[], []⟩ 0 outputs with
  | .err e => .err e
  | .panicked => .panicked
  | .ok (msgtx0, minAmount) =>
    match selectBase minAmount msgtx0 [] 0 (sortEligible eligible) with
    | .err e => .err e
    | .panicked => .panicked
    | .ok (msgtx1, inputs1, eligible1, totalAdded1) =>
      match replenish env bsHeight feeIncrement disallowFree minAmount msgtx1 inputs1
          totalAdded1 (estimateTxSize inputs1.length msgtx1.txOut.length)
          (minimumFee feeIncrement (estimateTxSize inputs1.length msgtx1.txOut.length)
            msgtx1.txOut inputs1 bsHeight disallowFree) eligible1 with
      | .err e => .err e
      | .panicked => .panicked
      | .ok st =>
        match convergeLoop env bsHeight feeIncrement disallowFree account minAmount
            fuel st none (-1) with
        | .err e => .err e
        | .panicked => .panicked
        | .fuelOut => .fuelOut
        | .ok out =>
          match validateMsgTx env out.msgtx out.inputs with
          | .err e => .err e
          | .panicked => .panicked
          | .ok () => .ok ⟨out.msgtx, out.changeAddr, out.changeIdx⟩

/-! ## Eligibility filter (`findEligibleOutputs`) -/

/-- `blockchain.CoinbaseMaturity` (consensus constant of the host chain). -/
def coinbaseMaturity : Int := 100

/-- `Wallet.findEligibleOutputs`, as the filter it applies to the unspent
set: required confirmations, coinbase maturity, the outpoint lock set, a
P2PKH script class, and the account of the extracted address.  `extract`
folds an extraction error into the `nonStandardTy` class, exactly as the
source treats `err != nil` and a non-P2PKH class alike. -/
def findEligibleOutputs (extract : Script → ScriptClass × List Addr)
    (addrAccount : Addr → Except String Nat) (locked : LockSet) (account : Nat)
    (minconf : Int) (tipHeight : Int) (unspent : List Credit) : List Credit :=
  unspent.filter fun output =>
    confirmed minconf output.height tipHeight &&
    (!output.fromCoinBase || confirmed coinbaseMaturity output.height tipHeight) &&
    !(LockedOutpoint locked output.outPoint) &&
    (match extract output.pkScript with
     | (.pubKeyHashTy, a :: _) =>
       (match addrAccount a with
        | .ok acct => acct == account
        | .error _ => false)
     | _ => false)

/-! ## The wallet-locker state machine (`walletLocker`) -/

/-- The observable state of the `walletLocker` goroutine: the manager's
locked flag, whether a relock timer is armed (`timeout != nil`), whether an
armed timer has fired but not yet been consumed by the worker (possible only
while a hold is out, the worker being blocked on `<-holdChan`), and whether
a `HeldUnlock` token is outstanding. -/
structure LockerState where
  mgrLocked : Bool
  timerArmed : Bool
  timerExpired : Bool
  held : Bool
deriving DecidableEq, Repr

/-- The events the locker worker reacts to.  `unlock` carries whether the
passphrase is accepted by the manager and whether the requested timeout is
zero (zero means no expiry); `timerFire` is the armed timer's channel
becoming ready. -/
inductive LockerEvent where
  | unlock (passOk : Bool) (timeoutZero : Bool)
  | lock
  | hold
  | release
  | timerFire
  | queryLockState
  | changePassphrase (ok : Bool)
deriving DecidableEq, Repr

/-- Replies delivered to requesters. -/
inductive LockerReply where
  | ok
  | errUnlock
  | alreadyLocked
  | token
  | lockState (locked : Bool)
  | passErr
deriving DecidableEq, Repr

/-- One step of `walletLocker`.  While a hold is outstanding the worker is
blocked in `<-holdChan`, so requests other than the release are queued (no
effect yet) and an armed timer can only mark itself expired; on release the
worker locks immediately iff the timer already expired.  When no hold is
out: a hold request against a locked manager is answered by closing the
request channel (an already-locked error) without a transition; an explicit
lock request and a timer expiry both fall through to the bottom of the
select, which locks the manager only when a timer is armed
(`if timeout != nil`). -/
def lockerStep (s : LockerState) (e : LockerEvent) : LockerState × Option LockerReply :=
  match e with
  | .unlock passOk timeoutZero =>
    if s.held then (s, none)
    else if passOk then
      ({ s with mgrLocked := false, timerArmed := !timeoutZero, timerExpired := false },
        some .ok)
    else (s, some .errUnlock)
  | .lock =>
    if s.held then (s, none)
    else if s.timerArmed then
      ({ s with mgrLocked := true, timerArmed := false, timerExpired := false }, some .ok)
    else (s, some .ok)
  | .hold =>
    if s.held then (s, none)
    else if s.mgrLocked then (s, some .alreadyLocked)
    else ({ s with held := true }, some .token)
  | .release =>
    if s.held then
      if s.timerArmed && s.timerExpired then
        (⟨true, false, false, false⟩, some .ok)
      else ({ s with held := false }, some .ok)
    else (s, none)
  | .timerFire =>
    if s.held then
      if s.timerArmed then ({ s with timerExpired := true }, none) else (s, none)
    else
      if s.timerArmed then
        ({ s with mgrLocked := true, timerArmed := false, timerExpired := false }, none)
      else (s, none)
  | .queryLockState =>
    if s.held then (s, none) else (s, some (.lockState s.mgrLocked))
  | .changePassphrase ok =>
    if s.held then (s, none) else (s, some (if ok then .ok else .passErr))

/-- Run the locker over a sequence of events. -/
def runLocker (s : LockerState) : List LockerEvent → LockerState
  | [] => s
  | e :: es => runLocker (lockerStep s e).1 es

/-! ## Result observers and a concrete environment for the scenarios -/

/-- The `ChangeIndex` of a successful build. -/
def LoopRes.changeIndexOf : LoopRes CreatedTx → Option Int
  | .ok tx => some tx.changeIndex
  | _ => none

/-- The number of outputs of a successful build. -/
def LoopRes.numOutputsOf : LoopRes CreatedTx → Option Nat
  | .ok tx => some tx.msgTx.txOut.length
  | _ => none

/-- The previous outpoints referenced by the inputs of a successful build,
in input order; these identify the selected credits. -/
def LoopRes.txInPrevOuts : LoopRes CreatedTx → Option (List OutPoint)
  | .ok tx => some (tx.msgTx.txIn.map TxIn.prevOut)
  | _ => none

/-- The output values of a successful build, in output order. -/
def LoopRes.txOutValues : LoopRes CreatedTx → Option (List Amount)
  | .ok tx => some (tx.msgTx.txOut.map TxOut.value)
  | _ => none

/-- The `ChangeAddr` of a successful build. -/
def LoopRes.changeAddrOf : LoopRes CreatedTx → Option (Option Addr)
  | .ok tx => some tx.changeAddr
  | _ => none

/-- The serialized size of a successful build's transaction. -/
def LoopRes.sizeOf : LoopRes CreatedTx → Option Nat
  | .ok tx => some tx.msgTx.serializeSize
  | _ => none

/-- A standard 25-byte P2PKH script for the pubkey hash `h` (hash bytes
abbreviated as 20 copies of `h`). -/
def p2pkhScript (h : Nat) : Script :=
  118 :: 169 :: 20 :: (List.replicate 20 h ++ [136, 172])

/-- A concrete environment for the end-to-end scenarios: addresses decode
by their string length, P2PKH scripts build and extract in the standard
shape, every managed address is key-bearing, signing yields a `sigLen`-byte
script, verification succeeds, the change address is the P2PKH address of
hash 99, and the change-placement PRNG picks `n − 1` (the appended slot). -/
def tstEnv (sigLen : Nat) : Env where
  decodeAddress := fun s => .ok (.pubKeyHash s.length)
  payToAddrScript := fun a =>
    match a with
    | .pubKeyHash h => .ok (p2pkhScript h)
    | _ => .error "unsupported address type"
  extractPkScriptAddrs := fun s =>
    match s with
    | 118 :: 169 :: 20 :: rest => (.pubKeyHashTy, [.pubKeyHash (rest.headD 0)])
    | 33 :: rest => (.pubKeyTy, [.pubKey (rest.headD 0)])
    | _ => (.nonStandardTy, [])
  mgrAddress := fun _ => .ok (.keyBearing (.ok 42) true)
  signatureScript := fun _ _ _ _ _ => .ok (List.replicate sigLen 7)
  verifyInput := fun _ _ _ => .ok ()
  newChangeAddress := fun _ => .ok (.pubKeyHash 99)
  randPick := fun n => n - 1

/-! # Theorems

## C4 — the size-estimate formula -/

/-- C4 (counterexample): the claimed per-input constant 148 is wrong.  At
one input and no outputs the source estimate is 10 + 146 = 156, whereas the
claim `estimateTxSize(n_in, n_out) = 10 + 148*n_in + 34*n_out` prescribes
158. -/
theorem estimateTxSize_one_input_not_claimed :
    estimateTxSize 1 0 = 156 ∧ (10 + 148 * 1 + 34 * 0 : Nat) ≠ 156 := by
  decide

/-- C4 (amended): for all `n_in` and `n_out`, the transaction size estimate
equals `tx_overhead + n_in * input_est + n_out * output_est` with constants
overhead = 10, input = 146 (32 + 4 + 4 bytes of input framing plus the
106-byte best-case signature script estimate 1 + 70 + 1 + 33 + 1) and
output = 34. -/
theorem estimateTxSize_closed_form (nIn nOut : Nat) :
    estimateTxSize nIn nOut = 10 + 146 * nIn + 34 * nOut := by
  simp only [estimateTxSize, txOverheadEstimate, txInEstimate, sigScriptEstimate,
    txOutEstimate, pkScriptEstimate]

/-! ## C5 — `minimumFee` and its clamp -/

/-- Steps 1–2 of the §4.1 minimum-fee computation: the size-based fee,
zeroed when free-eligible and the size is under a kilobyte. -/
def minimumFeeSteps12 (incr : Amount) (txLen : Nat) (prevOutputs : List Credit)
    (height : Int) (disallowFree : Bool) : Amount :=
  if (if disallowFree then false else allowNoFeeTx height prevOutputs txLen)
      && decide (txLen < 1000) then 0
  else feeForSize incr txLen

/-- The value §4.1 prescribes according to the claim: steps 1–3 followed by
a clamp of the result into `[0, max_amount]` (negative values to 0, values
above the maximum to the maximum). -/
def minimumFeeClaimed (incr : Amount) (txLen : Nat) (outputs : List TxOut)
    (prevOutputs : List Credit) (height : Int) (disallowFree : Bool) : Amount :=
  let fee := minimumFeeSteps12 incr txLen prevOutputs height disallowFree
  let fee :=
    if fee < incr && outputs.any (fun o => o.value < satoshiPerBitcent) then incr else fee
  min maxSatoshi (max 0 fee)

/-- What the source actually computes: steps 1–2, then the sub-bitcent
branch returns the increment *without any clamp*, and otherwise a result
outside `[0, max_amount]` — negative values included — is replaced by
`max_amount`, never by 0. -/
def minimumFeeAmended (incr : Amount) (txLen : Nat) (outputs : List TxOut)
    (prevOutputs : List Credit) (height : Int) (disallowFree : Bool) : Amount :=
  let fee := minimumFeeSteps12 incr txLen prevOutputs height disallowFree
  if fee < incr && outputs.any (fun o => o.value < satoshiPerBitcent) then incr
  else if 0 ≤ fee ∧ fee ≤ maxSatoshi then fee
  else maxSatoshi

/-- The source's trailing clamp (`if fee < 0 || fee > MaxSatoshi { fee =
MaxSatoshi }`) agrees with replacing any value outside `[0, MaxSatoshi]` by
`MaxSatoshi`. -/
theorem clampBranches_eq (incr fee : Amount) (b : Bool) :
    (if (decide (fee < incr) && b) = true then incr
     else if (decide (fee < 0) || decide (fee > maxSatoshi)) = true then maxSatoshi
     else fee) =
    (if (decide (fee < incr) && b) = true then incr
     else if 0 ≤ fee ∧ fee ≤ maxSatoshi then fee
     else maxSatoshi) := by
  by_cases h : (decide (fee < incr) && b) = true
  · rw [if_pos h, if_pos h]
  · rw [if_neg h, if_neg h]
    by_cases h1 : fee < 0 ∨ fee > maxSatoshi
    · have h2 : ¬(0 ≤ fee ∧ fee ≤ maxSatoshi) := by
        rcases h1 with h1 | h1
        · exact fun hc => absurd hc.1 (not_le.mpr h1)
        · exact fun hc => absurd hc.2 (not_le.mpr h1)
      rw [if_pos (by simp only [Bool.or_eq_true, decide_eq_true_eq]; exact h1), if_neg h2]
    · have h2 : 0 ≤ fee ∧ fee ≤ maxSatoshi := by
        rw [not_or] at h1
        exact ⟨not_lt.mp h1.1, not_lt.mp h1.2⟩
      rw [if_neg (by simp only [Bool.or_eq_true, decide_eq_true_eq]; exact h1), if_pos h2]

/-- C5 (counterexample): with increment −1 and an empty transaction the
steps 1–3 fee is −1; the claim prescribes clamping it to 0, but the source
clamp `if fee < 0 || fee > MaxSatoshi { fee = MaxSatoshi }` yields
`MaxSatoshi` = 2.1e15. -/
theorem minimumFee_negative_not_clamped_to_zero :
    minimumFee (-1) 0 [] [] 0 true = maxSatoshi ∧
    minimumFeeClaimed (-1) 0 [] [] 0 true = 0 ∧
    maxSatoshi ≠ 0 := by
  refine ⟨by decide, by decide, by decide⟩

/-- C5 (amended): `minimumFee` equals the steps 1–3 computation in which
the sub-bitcent branch returns the increment unclamped, and any other
result outside `[0, max_amount]` — in particular a negative one — is
replaced by `max_amount`. -/
theorem minimumFee_eq_amended (incr : Amount) (txLen : Nat) (outputs : List TxOut)
    (prevOutputs : List Credit) (height : Int) (disallowFree : Bool) :
    minimumFee incr txLen outputs prevOutputs height disallowFree =
      minimumFeeAmended incr txLen outputs prevOutputs height disallowFree := by
  simp only [minimumFee, minimumFeeAmended, minimumFeeSteps12]
  exact clampBranches_eq incr _ _

/-! ## C9 — outpoint lock-set algebra -/

/-- C9: after `LockOutpoint(op)` the outpoint reads locked; after
`UnlockOutpoint(op)` it reads unlocked; both operations leave every other
outpoint's status unchanged; and after `ResetLockedOutpoints` every
outpoint reads unlocked. -/
theorem lockOutpoint_spec (s : LockSet) (op other : OutPoint) (hne : other ≠ op) :
    LockedOutpoint (LockOutpoint s op) op = true ∧
    LockedOutpoint (UnlockOutpoint s op) op = false ∧
    LockedOutpoint (LockOutpoint s op) other = LockedOutpoint s other ∧
    LockedOutpoint (UnlockOutpoint s op) other = LockedOutpoint s other ∧
    LockedOutpoint ResetLockedOutpoints op = false := by
  refine ⟨?_, ?_, ?_, ?_, rfl⟩
  · simp [LockedOutpoint, LockOutpoint]
  · simp [LockedOutpoint, UnlockOutpoint]
  · simp [LockedOutpoint, LockOutpoint, hne]
  · simp [LockedOutpoint, UnlockOutpoint, hne]

/-- C9 (witness): the specification at a concrete lock set and two distinct
outpoints. -/
theorem lockOutpoint_spec_witness :
    LockedOutpoint (LockOutpoint ResetLockedOutpoints ⟨1, 0⟩) ⟨1, 0⟩ = true ∧
    LockedOutpoint (UnlockOutpoint ResetLockedOutpoints ⟨1, 0⟩) ⟨1, 0⟩ = false ∧
    LockedOutpoint (LockOutpoint ResetLockedOutpoints ⟨1, 0⟩) ⟨2, 5⟩ =
      LockedOutpoint ResetLockedOutpoints ⟨2, 5⟩ ∧
    LockedOutpoint (UnlockOutpoint ResetLockedOutpoints ⟨1, 0⟩) ⟨2, 5⟩ =
      LockedOutpoint ResetLockedOutpoints ⟨2, 5⟩ ∧
    LockedOutpoint ResetLockedOutpoints ⟨1, 0⟩ = false :=
  lockOutpoint_spec ResetLockedOutpoints ⟨1, 0⟩ ⟨2, 5⟩ (by decide)

/-! ## C10 — confirmation counts are never negative -/

/-- C10: `confirms` is never negative; it is 0 for an unmined transaction
(height −1) and whenever the transaction height exceeds the current height;
such a credit fails any `minconf ≥ 1` requirement and is excluded by the
eligibility filter. -/
theorem confirms_spec (txH curH minconf tipH : Int) (account : Nat)
    (extract : Script → ScriptClass × List Addr)
    (addrAccount : Addr → Except String Nat) (locked : LockSet)
    (c : Credit) (unspent : List Credit) :
    0 ≤ confirms txH curH ∧
    confirms (-1) curH = 0 ∧
    (txH > curH → confirms txH curH = 0) ∧
    (1 ≤ minconf → txH > curH → confirmed minconf txH curH = false) ∧
    (1 ≤ minconf → c.height > tipH →
      c ∉ findEligibleOutputs extract addrAccount locked account minconf tipH unspent) := by
  have hzero : ∀ a b : Int, a > b → confirms a b = 0 := by
    intro a b hab
    simp only [confirms, Bool.or_eq_true, decide_eq_true_eq]
    rw [if_pos (Or.inr hab)]
  have hconf : ∀ m a b : Int, 1 ≤ m → a > b → confirmed m a b = false := by
    intro m a b hm hab
    simp only [confirmed, hzero a b hab, decide_eq_false_iff_not, not_le]
    omega
  refine ⟨?_, ?_, hzero txH curH, hconf minconf txH curH, ?_⟩
  · simp only [confirms]
    split
    · exact le_refl 0
    · rename_i hcond
      simp only [Bool.or_eq_true, decide_eq_true_eq, not_or] at hcond
      omega
  · simp only [confirms, Bool.or_eq_true, decide_eq_true_eq]
    simp
  · intro hm hgt hmem
    rw [findEligibleOutputs, List.mem_filter] at hmem
    have h1 := hmem.2
    rw [hconf minconf c.height tipH hm hgt] at h1
    simp at h1

/-- C10 (witness): a credit at height 12 with tip height 10 has zero
confirmations and is not eligible at `minconf = 1`. -/
theorem confirms_spec_witness :
    0 ≤ confirms 12 10 ∧
    confirms (-1) 10 = 0 ∧
    (12 > (10 : Int) → confirms 12 10 = 0) ∧
    ((1 : Int) ≤ 1 → 12 > (10 : Int) → confirmed 1 12 10 = false) ∧
    ((1 : Int) ≤ 1 → (12 : Int) > 10 →
      (⟨⟨1, 0⟩, 5, [], 12, false⟩ : Credit) ∉
        findEligibleOutputs (fun _ => (.nonStandardTy, [])) (fun _ => .ok 0)
          ResetLockedOutpoints 0 1 10 [⟨⟨1, 0⟩, 5, [], 12, false⟩]) :=
  confirms_spec 12 10 1 10 0 (fun _ => (.nonStandardTy, [])) (fun _ => .ok 0)
    ResetLockedOutpoints ⟨⟨1, 0⟩, 5, [], 12, false⟩ [⟨⟨1, 0⟩, 5, [], 12, false⟩]

/-! ## C8 — held unlock pauses auto-lock; hold while locked errs -/

/-- While a hold token is outstanding, any event other than the release
keeps the hold outstanding and leaves the manager's lock flag unchanged (in
particular a timer expiry only marks the timer, it cannot lock). -/
theorem lockerStep_held_frame (s : LockerState) (e : LockerEvent)
    (hheld : s.held = true) (hne : e ≠ .release) :
    (lockerStep s e).1.held = true ∧ (lockerStep s e).1.mgrLocked = s.mgrLocked := by
  cases e with
  | release => exact absurd rfl hne
  | timerFire =>
    simp only [lockerStep]
    rw [if_pos hheld]
    split <;> exact ⟨hheld, rfl⟩
  | unlock passOk timeoutZero => simp only [lockerStep]; rw [if_pos hheld]; exact ⟨hheld, rfl⟩
  | lock => simp only [lockerStep]; rw [if_pos hheld]; exact ⟨hheld, rfl⟩
  | hold => simp only [lockerStep]; rw [if_pos hheld]; exact ⟨hheld, rfl⟩
  | queryLockState => simp only [lockerStep]; rw [if_pos hheld]; exact ⟨hheld, rfl⟩
  | changePassphrase ok => simp only [lockerStep]; rw [if_pos hheld]; exact ⟨hheld, rfl⟩

/-- C8: while a `HeldUnlock` token is outstanding, no sequence of events
that does not release the token can change the manager's lock flag — the
timeout-driven auto-lock never fires during a hold; and a hold request
issued while the manager is locked is answered with the already-locked
error and no state change. -/
theorem walletLocker_hold_spec (s : LockerState) (evs : List LockerEvent) :
    (s.held = true → LockerEvent.release ∉ evs →
      (runLocker s evs).mgrLocked = s.mgrLocked ∧ (runLocker s evs).held = true) ∧
    (s.mgrLocked = true → s.held = false →
      lockerStep s .hold = (s, some .alreadyLocked)) := by
  constructor
  · induction evs generalizing s with
    | nil => intro hheld _; exact ⟨rfl, hheld⟩
    | cons e es ih =>
      intro hheld hnr
      have hne : e ≠ .release := fun he => hnr (he ▸ List.mem_cons_self e es)
      have hes : LockerEvent.release ∉ es := fun hm => hnr (List.mem_cons_of_mem e hm)
      have hstep := lockerStep_held_frame s e hheld hne
      have := ih (lockerStep s e).1 hstep.1 hes
      exact ⟨by rw [runLocker, this.1, hstep.2], by rw [runLocker]; exact this.2⟩
  · intro hlocked hfree
    simp only [lockerStep]
    rw [if_neg (by rw [hfree]; exact Bool.false_ne_true), if_pos hlocked]

/-- C8 (witness): starting unlocked with an armed timer and an outstanding
hold, a timer expiry followed by further queued requests leaves the wallet
unlocked; and a hold against the locked idle state replies already-locked. -/
theorem walletLocker_hold_spec_witness :
    ((true = true → LockerEvent.release ∉ [LockerEvent.timerFire, LockerEvent.lock] →
      (runLocker ⟨false, true, false, true⟩
        [LockerEvent.timerFire, LockerEvent.lock]).mgrLocked = false ∧
      (runLocker ⟨false, true, false, true⟩
        [LockerEvent.timerFire, LockerEvent.lock]).held = true) ∧
     (true = true → false = false →
      lockerStep ⟨true, false, false, false⟩ .hold =
        (⟨true, false, false, false⟩, some .alreadyLocked))) ∧
    LockerEvent.release ∉ [LockerEvent.timerFire, LockerEvent.lock] :=
  ⟨⟨fun _ h => (walletLocker_hold_spec ⟨false, true, false, true⟩
      [LockerEvent.timerFire, LockerEvent.lock]).1 rfl h,
    fun _ _ => (walletLocker_hold_spec ⟨true, false, false, false⟩ []).2 rfl rfl⟩,
   by decide⟩

/-! ## C2 — the signing pipeline's unsupported-input handling -/

/-- Whether a `coinutil.Address` is an `*AddressPubKeyHash`. -/
def Addr.isP2PKH : Addr → Bool
  | .pubKeyHash _ => true
  | _ => false

/-- A one-input transaction whose previous-output script is nonstandard. -/
def c2Msgtx : MsgTx := ⟨[⟨⟨9, 0⟩, []⟩], []⟩

/-- The credit funding `c2Msgtx`: its script `[0]` extracts as nonstandard
with zero addresses. -/
def c2Credit : Credit := ⟨⟨9, 0⟩, 5, [0], -1, false⟩

/-- C2 (counterexample): the claim says an input whose script does not
extract as P2PKH with exactly one address makes `signMsgTx` return
`ErrUnsupportedTransactionType`; but for a script extracting zero addresses
the loop body executes `continue`, so `signMsgTx` returns successfully with
the transaction unchanged. -/
theorem signMsgTx_skips_zero_address_input :
    signMsgTx (tstEnv 106) c2Msgtx [c2Credit] = .ok c2Msgtx ∧
    signMsgTx (tstEnv 106) c2Msgtx [c2Credit] ≠ .err .unsupportedTransactionType :=
  ⟨rfl, by decide⟩

/-- Elements of an `enumFrom` project into the underlying list. -/
theorem snd_mem_of_mem_enumFrom {l : List Credit} {n : Nat} {p : Nat × Credit}
    (h : p ∈ l.enumFrom n) : p.2 ∈ l := by
  induction l generalizing n with
  | nil => cases h
  | cons x xs ih =>
    rcases List.mem_cons.mp h with h | h
    · rw [h]; exact List.mem_cons_self x xs
    · exact List.mem_cons_of_mem x (ih h)

/-- If every input's script extracts a number of addresses different from
one, the signing loop skips every input. -/
theorem signInputs_skips_all (env : Env) (msgtx : MsgTx) (l : List (Nat × Credit))
    (h : ∀ p ∈ l, (env.extractPkScriptAddrs p.2.pkScript).2.length ≠ 1) :
    signInputs env msgtx l = .ok msgtx := by
  induction l generalizing msgtx with
  | nil => rfl
  | cons p rest ih =>
    obtain ⟨i, c⟩ := p
    have hc := h (i, c) (List.mem_cons_self _ _)
    cases haddr : (env.extractPkScriptAddrs c.pkScript).2 with
    | nil =>
      simp only [signInputs, haddr]
      exact ih msgtx fun q hq => h q (List.mem_cons_of_mem _ hq)
    | cons a tl =>
      cases tl with
      | nil => exact absurd (by simp [haddr]) hc
      | cons b tl2 =>
        simp only [signInputs, haddr]
        exact ih msgtx fun q hq => h q (List.mem_cons_of_mem _ hq)

/-- C2 (amended): what `signMsgTx` actually does with unsupported inputs —
(1) a first input whose script extracts exactly one address that is not a
pay-to-pubkey-hash address yields `ErrUnsupportedTransactionType`; (2) when
every input's script extracts a number of addresses different from one, all
inputs are skipped and `signMsgTx` returns the transaction unchanged with
no error; (3) a first input with a single P2PKH address whose managed
address is not key-bearing hits the unchecked interface assertion and
panics instead of returning the error. -/
theorem signMsgTx_unsupported_handling (env : Env) (msgtx : MsgTx) (c : Credit)
    (rest : List Credit) (creds : List Credit) (a : Addr) (h : Nat) (sc : Script) :
    ((c :: rest).length = msgtx.txIn.length →
      (env.extractPkScriptAddrs c.pkScript).2 = [a] → a.isP2PKH = false →
      signMsgTx env msgtx (c :: rest) = .err .unsupportedTransactionType) ∧
    (creds.length = msgtx.txIn.length →
      (∀ cr ∈ creds, (env.extractPkScriptAddrs cr.pkScript).2.length ≠ 1) →
      signMsgTx env msgtx creds = .ok msgtx) ∧
    ((c :: rest).length = msgtx.txIn.length →
      (env.extractPkScriptAddrs c.pkScript).2 = [.pubKeyHash h] →
      env.mgrAddress (.pubKeyHash h) = .ok (.scriptOnly sc) →
      signMsgTx env msgtx (c :: rest) = .panicked) := by
  refine ⟨?_, ?_, ?_⟩
  · intro hlen haddr hnot
    rw [signMsgTx, if_neg (by rw [hlen]; exact fun hne => hne rfl)]
    show signInputs env msgtx ((c :: rest).enumFrom 0) = _
    simp only [List.enumFrom, signInputs, haddr]
    cases a with
    | pubKeyHash k => simp [Addr.isP2PKH] at hnot
    | pubKey k => rfl
    | scriptHash k => rfl
  · intro hlen hall
    rw [signMsgTx, if_neg (by rw [hlen]; exact fun hne => hne rfl)]
    exact signInputs_skips_all env msgtx creds.enum
      fun p hp => hall p.2 (snd_mem_of_mem_enumFrom hp)
  · intro hlen haddr hmgr
    rw [signMsgTx, if_neg (by rw [hlen]; exact fun hne => hne rfl)]
    show signInputs env msgtx ((c :: rest).enumFrom 0) = _
    simp only [List.enumFrom, signInputs, haddr, hmgr]

/-- A variant of the scenario environment whose manager returns a managed
address that is not key-bearing. -/
def tstEnvScriptOnly : Env :=
  { tstEnv 106 with mgrAddress := fun _ => .ok (.scriptOnly []) }

/-- A one-input transaction funded by a P2PKH credit of hash 7. -/
def c2bMsgtx : MsgTx := ⟨[⟨⟨9, 1⟩, []⟩], []⟩

/-- A credit whose script extracts a single pay-to-pubkey (not
pay-to-pubkey-hash) address under `tstEnv`. -/
def c2bCredit : Credit := ⟨⟨9, 1⟩, 5, [33, 4], -1, false⟩

/-- A P2PKH credit for the panic case. -/
def c2cCredit : Credit := ⟨⟨9, 2⟩, 5, p2pkhScript 7, -1, false⟩

/-- C2 (witness for the amended theorem): concrete instances of the three
behaviours — error on a single non-P2PKH address, silent skip on a
zero-address script, and a panic on a non-key-bearing managed address. -/
theorem signMsgTx_unsupported_handling_witness :
    signMsgTx (tstEnv 106) c2bMsgtx [c2bCredit] = .err .unsupportedTransactionType ∧
    signMsgTx (tstEnv 106) c2Msgtx [c2Credit] = .ok c2Msgtx ∧
    signMsgTx tstEnvScriptOnly c2bMsgtx [c2cCredit] = .panicked :=
  ⟨(signMsgTx_unsupported_handling (tstEnv 106) c2bMsgtx c2bCredit [] [] (.pubKey 4) 0
      []).1 rfl rfl rfl,
   (signMsgTx_unsupported_handling (tstEnv 106) c2Msgtx c2bCredit [] [c2Credit] (.pubKey 4)
      0 []).2.1 rfl (by decide),
   (signMsgTx_unsupported_handling tstEnvScriptOnly c2bMsgtx c2cCredit [] [] (.pubKey 4) 7
      []).2.2 rfl (by decide) rfl⟩

/-! ## C3 — the two-output end-to-end scenario (spec S1 / `TestCreateTx`) -/

/-- An eligible credit of the S1 scenario: output `i` of the funding
transaction, unmined (height −1). -/
def s1Credit (i : Nat) (amt : Amount) : Credit :=
  ⟨⟨1, i⟩, amt, p2pkhScript i, -1, false⟩

/-- The S1 eligible set: outputs {1: 3e6, 2: 9e6, 3: 1e7, 4: 1.5e7,
5: 1e5}. -/
def s1Eligible : List Credit :=
  [s1Credit 1 3000000, s1Credit 2 9000000, s1Credit 3 10000000,
   s1Credit 4 15000000, s1Credit 5 100000]

/-- The S1 pay-list `{A: 1.5e7, B: 1e7}` (two addresses of distinct
lengths). -/
def s1Outputs : List (String × Amount) := [("A", 15000000), ("BB", 10000000)]

/-- The S1 build: tip height 11111, fee increment 1000, free fees allowed,
107-byte signature scripts. -/
def s1Run : LoopRes CreatedTx :=
  createTx (tstEnv 107) s1Eligible s1Outputs 11111 1000 0 false 30

/-- C3 (counterexample): the claim's third selected input — the 3e6 credit,
output 1 of the funding transaction — is not what `createTx` picks; the
largest-first selection takes outputs 4 (1.5e7), 3 (1e7) and then 2 (9e6),
never output 1. -/
theorem createTx_s1_inputs_not_claimed :
    s1Run.txInPrevOuts = some [⟨1, 4⟩, ⟨1, 3⟩, ⟨1, 2⟩] ∧
    some [(⟨1, 4⟩ : OutPoint), ⟨1, 3⟩, ⟨1, 2⟩] ≠
      some [(⟨1, 4⟩ : OutPoint), ⟨1, 3⟩, ⟨1, 1⟩] :=
  ⟨by rfl, by decide⟩

/-- C3 (amended): on the S1 scenario `createTx` selects exactly 3 inputs
largest-first with amounts 1.5e7, 1e7 and 9e6 (outpoints (1,4), (1,3),
(1,2)), and produces 3 outputs — the two pays plus one change output of
exactly 8,999,000 satoshi — so that with 3.4e7 in and 3.3999e7 out the fee
is exactly 1000; the serialized size (556 bytes) requires no more than the
estimated 1000-satoshi fee. -/
theorem createTx_s1_spec :
    s1Run.txInPrevOuts = some [⟨1, 4⟩, ⟨1, 3⟩, ⟨1, 2⟩] ∧
    s1Run.numOutputsOf = some 3 ∧
    s1Run.txOutValues = some [15000000, 10000000, 8999000] ∧
    s1Run.changeIndexOf = some 2 ∧
    s1Run.changeAddrOf = some (some (.pubKeyHash 99)) ∧
    s1Run.sizeOf = some 556 ∧
    feeForSize 1000 556 = 1000 ∧
    (15000000 + 10000000 + 9000000 : Int) =
      (15000000 + 10000000 + 8999000 : Int) + 1000 :=
  ⟨by rfl, by rfl, by rfl, by rfl, by rfl, by rfl, by rfl, by rfl⟩

/-! ## C1 — a non-negative `ChangeIndex` with no change output -/

/-- The C1 pay-list: 24 pays of 1000 satoshi each to addresses of distinct
lengths (total 24000). -/
def c1Outputs : List (String × Amount) :=
  (List.range 24).map fun i => (toString (10 ^ i), (1000 : Amount))

/-- The single eligible credit of the C1 scenario: 26000 satoshi. -/
def c1Eligible : List Credit := [⟨⟨1, 0⟩, 26000, p2pkhScript 7, -1, false⟩]

/-- The C1 build: fee increment 1000, free fees disallowed, best-case
106-byte signature scripts.  The first loop iteration has change 1000, adds
the change output (index 24 of 25 outputs) and then needs a higher fee (the
actual size 1008 crosses the kilobyte boundary that the 972-byte estimate
did not); the change output is removed, the fee estimate rises to 2000, and
the second iteration has change exactly 0, so no change output is re-added —
but the Go `changeIdx` variable keeps its stale value 24. -/
def c1Run : LoopRes CreatedTx :=
  createTx (tstEnv 106) c1Eligible c1Outputs 11111 1000 0 true 10

/-- C1: `createTx` returns successfully with `ChangeIndex = 24` while the
transaction has only 24 outputs (valid indices 0..23) and none of them is a
change output — contradicting both the claim and the source's own field
documentation `ChangeIndex int // negative if no change`. -/
theorem createTx_stale_change_index :
    c1Run.changeIndexOf = some 24 ∧
    c1Run.numOutputsOf = some 24 ∧
    c1Run.changeAddrOf = some (some (.pubKeyHash 99)) ∧
    c1Run.txOutValues = some (List.replicate 24 1000) :=
  ⟨by rfl, by rfl, by rfl, by decide⟩

/-! ## C6 — the convergence loop terminates, but not within
`⌈total_in / fee_increment⌉` iterations -/

/-- The C6 eligible set: one credit of 6000 and ten credits of 1000
satoshi. -/
def c6Eligible : List Credit :=
  ⟨⟨1, 0⟩, 6000, p2pkhScript 7, -1, false⟩ ::
    (List.range 10).map fun i => ⟨⟨2, i⟩, 1000, p2pkhScript 8, -1, false⟩

/-- The C6 pay-list: a single 5000-satoshi output. -/
def c6Outputs : List (String × Amount) := [("A", 5000)]

set_option maxRecDepth 100000 in
/-- C6 (counterexample): on this input the total selected amount is 16000
and the fee increment 1000, so the claim bounds the loop by
`⌈16000/1000⌉ = 16` iterations; yet 16 fuel units are exhausted, while
with 100 units the loop terminates (in `InsufficientFundsError{16000, 5000,
12000}`): the replenishment step's `minimumFee` recomputation can shrink
the just-incremented fee estimate (here because each added 1106-byte
signature script grows the actual size by about a kilobyte while the
146-byte-per-input estimate lags), so the estimate does not increase
monotonically and the claimed bound fails. -/
theorem createTx_loop_exceeds_claimed_bound :
    createTx (tstEnv 1106) c6Eligible c6Outputs 11111 1000 0 true 16 =
      .fuelOut ∧
    createTx (tstEnv 1106) c6Eligible c6Outputs 11111 1000 0 true 100 =
      .err (.insufficientFunds 16000 5000 12000) ∧
    (6000 + 10 * 1000 : Int) = 16000 :=
  ⟨by rfl, by rfl, by rfl⟩

/-! ## C7 — the fields of `InsufficientFundsError` -/

/-- Total amount of a list of credits. -/
def creditSum (l : List Credit) : Amount := (l.map Credit.amount).sum

/-- Total amount of a pay-list. -/
def payListTotal (outputs : List (String × Amount)) : Amount :=
  (outputs.map Prod.snd).sum

theorem creditSum_cons (c : Credit) (l : List Credit) :
    creditSum (c :: l) = c.amount + creditSum l := by
  simp [creditSum]

theorem creditSum_nonneg (l : List Credit) (h : ∀ c ∈ l, 0 ≤ c.amount) :
    0 ≤ creditSum l := by
  induction l with
  | nil => simp [creditSum]
  | cons c rest ih =>
    rw [creditSum_cons]
    have h1 := h c (List.mem_cons_self _ _)
    have h2 := ih fun x hx => h x (List.mem_cons_of_mem _ hx)
    linarith

theorem creditSum_insertDesc (c : Credit) (l : List Credit) :
    creditSum (insertDesc c l) = c.amount + creditSum l := by
  induction l with
  | nil => simp [insertDesc, creditSum]
  | cons x xs ih =>
    rw [insertDesc]
    split
    · rfl
    · rw [creditSum_cons, ih, creditSum_cons]; ring

theorem creditSum_sortEligible (l : List Credit) :
    creditSum (sortEligible l) = creditSum l := by
  induction l with
  | nil => rfl
  | cons x xs ih => rw [sortEligible, creditSum_insertDesc, ih, creditSum_cons]

theorem mem_insertDesc {x c : Credit} {l : List Credit}
    (h : x ∈ insertDesc c l) : x = c ∨ x ∈ l := by
  induction l with
  | nil =>
    rw [insertDesc] at h
    exact Or.inl (List.mem_singleton.mp h)
  | cons y ys ih =>
    rw [insertDesc] at h
    split at h
    · rcases List.mem_cons.mp h with h | h
      · exact Or.inl h
      · exact Or.inr h
    · rcases List.mem_cons.mp h with h | h
      · exact Or.inr (h ▸ List.mem_cons_self y ys)
      · rcases ih h with h | h
        · exact Or.inl h
        · exact Or.inr (List.mem_cons_of_mem _ h)

theorem mem_sortEligible {x : Credit} {l : List Credit}
    (h : x ∈ sortEligible l) : x ∈ l := by
  induction l with
  | nil => rw [sortEligible] at h; cases h
  | cons y ys ih =>
    rw [sortEligible] at h
    rcases mem_insertDesc h with h | h
    · exact h ▸ List.mem_cons_self y ys
    · exact List.mem_cons_of_mem _ (ih h)

/-- `selectBase` fails only with an `InsufficientFundsError` carrying the
whole selected amount, the pay-list total and a zero fee, and only when
even the whole eligible amount falls short. -/
theorem selectBase_err_spec {minAmount : Amount} {m : MsgTx} {ins el : List Credit}
    {ta : Amount} {e : TxErr}
    (h : selectBase minAmount m ins ta el = .err e) :
    e = .insufficientFunds (ta + creditSum el) minAmount 0 ∧
      ta + creditSum el < minAmount := by
  induction el generalizing m ins ta with
  | nil =>
    rw [selectBase] at h
    split at h
    · rename_i hlt
      injection h with h
      subst h
      refine ⟨by simp [creditSum], by simpa [creditSum] using hlt⟩
    · cases h
  | cons c rest ih =>
    rw [selectBase] at h
    split at h
    · obtain ⟨h1, h2⟩ := ih h
      rw [creditSum_cons, ← add_assoc]
      exact ⟨h1, h2⟩
    · cases h

/-- On success `selectBase` has reached the pay-list total, conserves the
total amount, and returns a suffix of the eligible list. -/
theorem selectBase_ok_spec {minAmount : Amount} {m : MsgTx} {ins el : List Credit}
    {ta : Amount} {m1 : MsgTx} {ins1 el1 : List Credit} {ta1 : Amount}
    (h : selectBase minAmount m ins ta el = .ok (m1, ins1, el1, ta1)) :
    minAmount ≤ ta1 ∧ ta1 + creditSum el1 = ta + creditSum el ∧
      (∀ c ∈ el1, c ∈ el) ∧ el1.length ≤ el.length := by
  induction el generalizing m ins ta with
  | nil =>
    rw [selectBase] at h
    split at h
    · cases h
    · rename_i hge
      injection h with h2
      simp only [Prod.mk.injEq] at h2
      obtain ⟨rfl, rfl, rfl, rfl⟩ := h2
      exact ⟨not_lt.mp hge, rfl, fun c hc => absurd hc (List.not_mem_nil c), le_refl _⟩
  | cons c rest ih =>
    rw [selectBase] at h
    split at h
    · obtain ⟨h1, h2, h3, h4⟩ := ih h
      refine ⟨h1, by rw [h2, creditSum_cons, ← add_assoc],
        fun x hx => List.mem_cons_of_mem _ (h3 x hx),
        Nat.le_trans h4 (Nat.le_succ _)⟩
    · rename_i hge
      injection h with h2
      simp only [Prod.mk.injEq] at h2
      obtain ⟨rfl, rfl, rfl, rfl⟩ := h2
      exact ⟨not_lt.mp hge, rfl, fun x hx => hx, le_refl _⟩

/-- `replenish` fails only with an `InsufficientFundsError` carrying the
whole selected amount, the pay-list total, and the fee estimate at the
drain, which the whole selected amount fails to cover. -/
theorem replenish_err_spec {env : Env} {bsH : Int} {incr : Amount} {df : Bool}
    {minA : Amount} {m : MsgTx} {ins : List Credit} {ta : Amount} {sz : Nat}
    {fe : Amount} {el : List Credit} {e : TxErr}
    (h : replenish env bsH incr df minA m ins ta sz fe el = .err e) :
    ∃ f, e = .insufficientFunds (ta + creditSum el) minA f ∧
      ta + creditSum el < minA + f := by
  induction el generalizing m ins ta sz fe with
  | nil =>
    rw [replenish] at h
    split at h
    · rename_i hlt
      injection h with h
      subst h
      exact ⟨fe, by simp [creditSum], by simpa [creditSum] using hlt⟩
    · cases h
  | cons c rest ih =>
    rw [replenish] at h
    split at h
    · obtain ⟨f, hf, hlt⟩ := ih h
      rw [creditSum_cons, ← add_assoc]
      exact ⟨f, hf, hlt⟩
    · cases h

/-- `addOutputs` fails only with `ErrNonPositiveAmount` or a formatted
message, never with an `InsufficientFundsError`. -/
theorem addOutputs_err_shape {env : Env} {m : MsgTx} {acc : Amount}
    {l : List (String × Amount)} {e : TxErr}
    (h : addOutputs env m acc l = .err e) :
    e = .nonPositiveAmount ∨ ∃ msg, e = .other msg := by
  induction l generalizing m acc with
  | nil => cases h
  | cons p rest ih =>
    obtain ⟨astr, amt⟩ := p
    rw [addOutputs] at h
    split at h
    · exact Or.inl (by injection h with h2; exact h2.symm)
    · split at h
      · exact Or.inr ⟨_, by injection h with h2; exact h2.symm⟩
      · split at h
        · exact Or.inr ⟨_, by injection h with h2; exact h2.symm⟩
        · exact ih h

/-- On success `addOutputs` returns the accumulated pay-list total. -/
theorem addOutputs_ok_total {env : Env} {m : MsgTx} {acc : Amount}
    {l : List (String × Amount)} {m1 : MsgTx} {tot : Amount}
    (h : addOutputs env m acc l = .ok (m1, tot)) :
    tot = acc + payListTotal l := by
  induction l generalizing m acc with
  | nil =>
    rw [addOutputs] at h
    injection h with h2
    simp only [Prod.mk.injEq] at h2
    obtain ⟨rfl, rfl⟩ := h2
    simp [payListTotal]
  | cons p rest ih =>
    obtain ⟨astr, amt⟩ := p
    rw [addOutputs] at h
    split at h
    · cases h
    · split at h
      · cases h
      · split at h
        · cases h
        · rw [ih h]
          simp only [payListTotal, List.map_cons, List.sum_cons]
          ring

/-- The signing loop fails only with `ErrUnsupportedTransactionType` or a
formatted message. -/
theorem signInputs_err_shape {env : Env} {m : MsgTx} {l : List (Nat × Credit)}
    {e : TxErr} (h : signInputs env m l = .err e) :
    e = .unsupportedTransactionType ∨ ∃ msg, e = .other msg := by
  induction l generalizing m with
  | nil => cases h
  | cons p rest ih =>
    obtain ⟨i, c⟩ := p
    rw [signInputs] at h
    repeat' split at h
    all_goals try exact ih h
    all_goals cases h
    all_goals first
      | exact Or.inl rfl
      | exact Or.inr ⟨_, rfl⟩

/-- `signMsgTx` fails only with `ErrUnsupportedTransactionType` or a
formatted message. -/
theorem signMsgTx_err_shape {env : Env} {m : MsgTx} {prev : List Credit} {e : TxErr}
    (h : signMsgTx env m prev = .err e) :
    e = .unsupportedTransactionType ∨ ∃ msg, e = .other msg := by
  rw [signMsgTx] at h
  split at h
  · exact Or.inr ⟨_, by injection h with h2; exact h2.symm⟩
  · exact signInputs_err_shape h

/-- `addChange` fails only with a formatted message. -/
theorem addChange_err_shape {env : Env} {m : MsgTx} {chg : Amount} {ca : Addr}
    {e : TxErr} (h : addChange env m chg ca = .err e) : ∃ msg, e = .other msg := by
  rw [addChange] at h
  repeat' split at h
  all_goals cases h
  all_goals exact ⟨_, rfl⟩

/-- The change phase fails only with a formatted message. -/
theorem changePhase_err_shape {env : Env} {account : Nat} {minA : Amount}
    {st : SelState} {cA : Option Addr} {cI : Int} {e : TxErr}
    (h : changePhase env account minA st cA cI = .err e) : ∃ msg, e = .other msg := by
  rw [changePhase.eq_def] at h
  split at h
  · split at h
    · exact ⟨_, by injection h with h2; exact h2.symm⟩
    · split at h
      · cases h
      · rename_i heq
        injection h with h2
        obtain ⟨msg, hmsg⟩ := addChange_err_shape heq
        exact ⟨msg, h2 ▸ hmsg⟩
      · cases h
  · cases h

/-- The validation loop fails only with a formatted message. -/
theorem validateLoop_err_shape {env : Env} {m : MsgTx} {prev : List Credit}
    {idx : List Nat} {e : TxErr} (h : validateLoop env m prev idx = .err e) :
    ∃ msg, e = .other msg := by
  induction idx with
  | nil => cases h
  | cons i rest ih =>
    rw [validateLoop] at h
    repeat' split at h
    all_goals try exact ih h
    all_goals cases h
    all_goals exact ⟨_, rfl⟩

/-- Success specification of `replenish`: total conservation, a suffix of
the eligible list, growth of the selected total under non-negative amounts,
the exit condition, the shape of the final fee estimate, and either a
strictly shorter eligible list or an entirely unchanged state. -/
theorem replenish_ok_spec (env : Env) (bsH : Int) (incr : Amount) (df : Bool)
    (minA : Amount) (el : List Credit) :
    ∀ m ins ta sz fe st,
      replenish env bsH incr df minA m ins ta sz fe el = .ok st →
      st.totalAdded + creditSum st.eligible = ta + creditSum el ∧
      (∀ c ∈ st.eligible, c ∈ el) ∧
      ((∀ c ∈ el, 0 ≤ c.amount) → ta ≤ st.totalAdded) ∧
      ¬st.totalAdded < minA + st.feeEst ∧
      (st.feeEst = fe ∨ ∃ szx outsx insx,
        st.feeEst = minimumFee incr szx outsx insx bsH df) ∧
      (st.eligible.length < el.length ∨
        (st.eligible = el ∧ st.totalAdded = ta ∧ st.feeEst = fe)) := by
  induction el with
  | nil =>
    intro m ins ta sz fe st h
    rw [replenish] at h
    split at h
    · cases h
    · rename_i hge
      injection h with h2
      subst h2
      exact ⟨rfl, fun c hc => hc, fun _ => le_refl _, hge, Or.inl rfl,
        Or.inr ⟨rfl, rfl, rfl⟩⟩
  | cons c rest ih =>
    intro m ins ta sz fe st h
    rw [replenish] at h
    split at h
    · obtain ⟨h1, h2, h3, h4, h5, h6⟩ := ih _ _ _ _ _ st h
      refine ⟨by rw [h1, creditSum_cons]; ring,
        fun x hx => List.mem_cons_of_mem _ (h2 x hx), ?_, h4, ?_, ?_⟩
      · intro hnn
        have hc := hnn c (List.mem_cons_self _ _)
        have := h3 fun x hx => hnn x (List.mem_cons_of_mem _ hx)
        linarith
      · rcases h5 with h5 | h5
        · exact Or.inr ⟨_, _, _, h5⟩
        · exact Or.inr h5
      · left
        rcases h6 with h6 | h6
        · exact Nat.lt_trans h6 (Nat.lt_succ_self _)
        · rw [h6.1]; exact Nat.lt_succ_self _
    · rename_i hge
      injection h with h2
      subst h2
      exact ⟨rfl, fun x hx => hx, fun _ => le_refl _, hge, Or.inl rfl,
        Or.inr ⟨rfl, rfl, rfl⟩⟩

/-- Inside the convergence loop, an `InsufficientFundsError` can only come
from the replenishment step, and its fields are the whole remaining
selectable amount, the pay-list total, and a fee estimate the selected
total fails to cover (while already covering the pay-list total). -/
theorem convergeLoop_insufficient_fields (env : Env) (bsH : Int) (incr : Amount)
    (df : Bool) (account : Nat) (minA : Amount) :
    ∀ fuel st cA cI a b f,
      (∀ c ∈ st.eligible, 0 ≤ c.amount) →
      minA ≤ st.totalAdded →
      convergeLoop env bsH incr df account minA fuel st cA cI =
        .err (.insufficientFunds a b f) →
      a = st.totalAdded + creditSum st.eligible ∧ b = minA ∧ minA ≤ a ∧ a < b + f := by
  intro fuel
  induction fuel with
  | zero => intro st cA cI a b f _ _ h; cases h
  | succ fuel ih =>
    intro st cA cI a b f hnn hta h
    rw [convergeLoop] at h
    split at h
    · rename_i heq
      injection h with h2
      obtain ⟨msg, hmsg⟩ := changePhase_err_shape heq
      rw [h2] at hmsg
      cases hmsg
    · cases h
    · split at h
      · rename_i heq
        injection h with h2
        rcases signMsgTx_err_shape heq with hs | ⟨msg, hs⟩ <;> rw [h2] at hs <;> cases hs
      · cases h
      · split at h
        · cases h
        · split at h
          · rename_i heq
            injection h with h2
            obtain ⟨f1, hf1, hlt1⟩ := replenish_err_spec heq
            rw [h2] at hf1
            injection hf1 with ha hb hf
            have hcs := creditSum_nonneg st.eligible hnn
            refine ⟨ha, hb, ?_, ?_⟩
            · rw [ha]; linarith
            · rw [ha, hb, hf]; exact hlt1
          · cases h
          · rename_i heq
            obtain ⟨h1, h2, h3, h4, _, _⟩ :=
              replenish_ok_spec env bsH incr df minA st.eligible _ _ _ _ _ _ heq
            have hres := ih _ _ _ a b f (fun c hc => hnn c (h2 c hc))
              (le_trans hta (h3 hnn)) h
            refine ⟨by rw [hres.1, h1], hres.2.1, hres.2.2⟩

/-- C7: whenever `createTx` fails with an `InsufficientFundsError` (with
non-negative credit amounts, as holds for every real credit), the error's
output field is exactly the pay-list total, its input field is exactly the
total amount of the whole eligible set (every credit having been selected
before the failure), and its fee field is 0 precisely when the eligible
total does not even cover the pay-list total. -/
theorem createTx_insufficientFunds_fields (env : Env) (eligible : List Credit)
    (outputs : List (String × Amount)) (bsHeight : Int) (incr : Amount)
    (account : Nat) (df : Bool) (fuel : Nat) (a b f : Amount)
    (hnn : ∀ c ∈ eligible, 0 ≤ c.amount)
    (hres : createTx env eligible outputs bsHeight incr account df fuel =
      .err (.insufficientFunds a b f)) :
    b = payListTotal outputs ∧ a = creditSum eligible ∧ (f = 0 ↔ a < b) := by
  have hnns : ∀ c ∈ sortEligible eligible, 0 ≤ c.amount :=
    fun c hc => hnn c (mem_sortEligible hc)
  rw [createTx] at hres
  split at hres
  · rename_i heq
    injection hres with h2
    rcases addOutputs_err_shape heq with hs | ⟨msg, hs⟩ <;> rw [h2] at hs <;> cases hs
  · cases hres
  · rename_i m0 minAmount heq0
    have hmin : minAmount = payListTotal outputs := by
      have := addOutputs_ok_total heq0
      rw [this]; ring
    split at hres
    · rename_i heq
      injection hres with h2
      obtain ⟨he, hlt⟩ := selectBase_err_spec heq
      rw [h2] at he
      injection he with ha hb hf
      have hsum : creditSum (sortEligible eligible) = creditSum eligible :=
        creditSum_sortEligible eligible
      refine ⟨by rw [hb]; exact hmin, by rw [ha]; simpa using hsum, ?_⟩
      constructor
      · intro _
        rw [ha, hb]
        simpa using hlt
      · intro _
        exact hf
    · cases hres
    · rename_i m1 ins1 el1 ta1 heq1
      obtain ⟨hta1, hcons1, hmem1, _⟩ := selectBase_ok_spec heq1
      have hnn1 : ∀ c ∈ el1, 0 ≤ c.amount := fun c hc => hnns c (hmem1 c hc)
      have hsum1 : ta1 + creditSum el1 = creditSum eligible := by
        rw [hcons1, creditSum_sortEligible]; ring
      split at hres
      · rename_i heq
        injection hres with h2
        obtain ⟨f1, hf1, hlt1⟩ := replenish_err_spec heq
        rw [h2] at hf1
        injection hf1 with ha hb hf
        have hcs : 0 ≤ creditSum el1 := creditSum_nonneg el1 hnn1
        refine ⟨by rw [hb]; exact hmin, by rw [ha]; exact hsum1, ?_⟩
        have hab : b ≤ a := by rw [ha, hb]; linarith
        have hfpos : 0 < f := by rw [hf]; linarith
        constructor
        · intro hf0; rw [hf0] at hfpos; exact absurd hfpos (lt_irrefl 0)
        · intro hlt2; exact absurd (lt_of_le_of_lt hab hlt2) (lt_irrefl b)
      · cases hres
      · rename_i st heq2
        obtain ⟨hc2, hm2, hg2, _, _, _⟩ :=
          replenish_ok_spec env bsHeight incr df minAmount el1 _ _ _ _ _ _ heq2
        have hnn2 : ∀ c ∈ st.eligible, 0 ≤ c.amount := fun c hc => hnn1 c (hm2 c hc)
        have hta2 : minAmount ≤ st.totalAdded := le_trans hta1 (hg2 hnn1)
        split at hres
        · rename_i heq
          injection hres with h2
          obtain ⟨h1, h2', h3, h4⟩ := convergeLoop_insufficient_fields env bsHeight incr
            df account minAmount fuel st none (-1) a b f hnn2 hta2 (by rw [heq, h2])
          refine ⟨by rw [h2']; exact hmin, by rw [h1, hc2, hsum1], ?_⟩
          have hab : b ≤ a := by rw [h2']; exact h3
          have hfpos : 0 < f := by linarith
          constructor
          · intro hf0; rw [hf0] at hfpos; exact absurd hfpos (lt_irrefl 0)
          · intro hlt2; exact absurd (lt_of_le_of_lt hab hlt2) (lt_irrefl b)
        · cases hres
        · cases hres
        · rename_i out heqv
          split at hres
          · rename_i heq
            injection hres with h2
            obtain ⟨msg, hs⟩ := validateLoop_err_shape heq
            rw [h2] at hs
            cases hs
          · cases hres
          · cases hres

/-- C7 (witness): a concrete drained build — one 5-satoshi credit against a
10-satoshi pay-list — fails with `InsufficientFundsError{5, 10, 0}`, whose
fields satisfy the specification. -/
theorem createTx_insufficientFunds_fields_witness :
    (10 : Amount) = payListTotal [("A", (10 : Amount))] ∧
    (5 : Amount) = creditSum [⟨⟨1, 0⟩, 5, p2pkhScript 1, -1, false⟩] ∧
    ((0 : Amount) = 0 ↔ (5 : Amount) < 10) :=
  createTx_insufficientFunds_fields (tstEnv 106)
    [⟨⟨1, 0⟩, 5, p2pkhScript 1, -1, false⟩] [("A", 10)] 11111 1000 0 true 10
    5 10 0 (by decide) (by rfl)

/-! ## C6 (amended) — termination of the convergence loop -/

/-- The trailing branches of `minimumFee` yield a non-negative result for a
positive increment, whatever the steps 1–2 fee was. -/
theorem minimumFee_tail_nonneg (incr fee : Amount) (b : Bool) (hincr : 0 < incr) :
    0 ≤ (if (decide (fee < incr) && b) = true then incr
         else if (decide (fee < 0) || decide (fee > maxSatoshi)) = true then maxSatoshi
         else fee) := by
  by_cases h1 : (decide (fee < incr) && b) = true
  · rw [if_pos h1]; exact le_of_lt hincr
  · rw [if_neg h1]
    by_cases h2 : (decide (fee < 0) || decide (fee > maxSatoshi)) = true
    · rw [if_pos h2]; decide
    · rw [if_neg h2]
      simp only [Bool.or_eq_true, decide_eq_true_eq, not_or] at h2
      exact not_lt.mp h2.1

/-- With a positive increment, `minimumFee` never returns a negative fee:
the sub-bitcent branch returns the increment and the final clamp forbids a
negative result. -/
theorem minimumFee_nonneg {incr : Amount} (hincr : 0 < incr) (txLen : Nat)
    (outputs : List TxOut) (prevOutputs : List Credit) (height : Int) (df : Bool) :
    0 ≤ minimumFee incr txLen outputs prevOutputs height df := by
  simp only [minimumFee]
  exact minimumFee_tail_nonneg incr _ _ hincr

/-- Division counting: removing one increment from a non-negative slack
removes exactly one unit. -/
theorem toNat_div_step (x incr : Int) (hincr : 0 < incr) (hge : incr ≤ x) :
    x.toNat / incr.toNat = (x - incr).toNat / incr.toNat + 1 := by
  have h1 : x.toNat = (x - incr).toNat + incr.toNat := by omega
  rw [h1, Nat.add_div_right _ (by omega)]

/-- `toNat`-division is monotone. -/
theorem toNat_div_mono (x y : Int) (k : Nat) (h : x ≤ y) :
    x.toNat / k ≤ y.toNat / k :=
  Nat.div_le_div_right (by omega)

/-- Inserting preserves length plus one. -/
theorem insertDesc_length (c : Credit) (l : List Credit) :
    (insertDesc c l).length = l.length + 1 := by
  induction l with
  | nil => rfl
  | cons x xs ih =>
    rw [insertDesc]
    split
    · rfl
    · simp [ih]

/-- Sorting preserves length. -/
theorem sortEligible_length (l : List Credit) :
    (sortEligible l).length = l.length := by
  induction l with
  | nil => rfl
  | cons x xs ih =>
    rw [sortEligible, insertDesc_length, ih]
    rfl

/-- The number of whole fee increments left in the slack
`totalAdded − minAmount − feeEst`. -/
def gapUnits (incr minA : Amount) (st : SelState) : Nat :=
  (st.totalAdded - minA - st.feeEst).toNat / incr.toNat

/-- A ceiling for `gapUnits` that is invariant along the loop: the whole
selectable amount above the pay-list total, in fee increments. -/
def gapCeil (incr minA : Amount) (st : SelState) : Nat :=
  (st.totalAdded + creditSum st.eligible - minA).toNat / incr.toNat

/-- The fuel measure of the convergence loop: each iteration either
consumes an eligible credit or one gap unit. -/
def loopMeasure (incr minA : Amount) (st : SelState) : Nat :=
  st.eligible.length * (gapCeil incr minA st + 1) + gapUnits incr minA st + 1

/-- Measure arithmetic for an iteration that popped a credit. -/
theorem measure_pop_le {len1 len2 g2 C g1 fuel : Nat}
    (hlen : len2 < len1) (hg2 : g2 ≤ C)
    (hm : len1 * (C + 1) + g1 + 1 ≤ fuel + 1) :
    len2 * (C + 1) + g2 + 1 ≤ fuel := by
  have h2 : (len2 + 1) * (C + 1) ≤ len1 * (C + 1) :=
    Nat.mul_le_mul_right _ hlen
  have h4 : (len2 + 1) * (C + 1) = len2 * (C + 1) + C + 1 := by ring
  omega

/-- Measure arithmetic for the initial bound. -/
theorem measure_init_le {len L g C fuel : Nat} (hlen : len ≤ L) (hg : g ≤ C)
    (hf : (L + 1) * (C + 1) + 1 ≤ fuel) :
    len * (C + 1) + g + 1 ≤ fuel := by
  have h1 : len * (C + 1) ≤ L * (C + 1) := Nat.mul_le_mul_right _ hlen
  have h2 : (L + 1) * (C + 1) = L * (C + 1) + C + 1 := by ring
  omega

/-- The convergence loop cannot run out of fuel when given its measure:
every iteration either returns, or strictly decreases
`(eligible credits left, gap units left)` lexicographically — the
replenishment step's exit condition restores `totalAdded ≥ minAmount +
feeEst`, and a no-pop iteration burns one whole increment of that slack. -/
theorem convergeLoop_no_fuelOut (env : Env) (bsH : Int) (incr : Amount) (df : Bool)
    (account : Nat) (minA : Amount) (hincr : 0 < incr) :
    ∀ fuel st cA cI,
      (∀ c ∈ st.eligible, 0 ≤ c.amount) →
      0 ≤ st.feeEst →
      ¬st.totalAdded < minA + st.feeEst →
      loopMeasure incr minA st ≤ fuel →
      convergeLoop env bsH incr df account minA fuel st cA cI ≠ .fuelOut := by
  intro fuel
  induction fuel with
  | zero =>
    intro st cA cI _ _ _ hm
    rw [loopMeasure] at hm
    omega
  | succ fuel ih =>
    intro st cA cI hnn hfe hgap hm h
    rw [convergeLoop] at h
    split at h
    · cases h
    · cases h
    · split at h
      · cases h
      · cases h
      · split at h
        · cases h
        · split at h
          · cases h
          · cases h
          · rename_i st2 heq
            obtain ⟨h1, h2, h3, h4, h5, h6⟩ :=
              replenish_ok_spec env bsH incr df minA st.eligible _ _ _ _ _ _ heq
            have hnn2 : ∀ c ∈ st2.eligible, 0 ≤ c.amount := fun c hc => hnn c (h2 c hc)
            have hfe2 : 0 ≤ st2.feeEst := by
              rcases h5 with h5 | ⟨szx, outsx, insx, h5⟩
              · rw [h5]; linarith
              · rw [h5]; exact minimumFee_nonneg hincr _ _ _ _ _
            have hcs2 : 0 ≤ creditSum st2.eligible := creditSum_nonneg _ hnn2
            have hceil : gapCeil incr minA st2 = gapCeil incr minA st := by
              rw [gapCeil, gapCeil, h1]
            have hg2C : gapUnits incr minA st2 ≤ gapCeil incr minA st2 := by
              rw [gapUnits, gapCeil]
              exact toNat_div_mono _ _ _ (by linarith)
            rcases h6 with hpop | ⟨hel, hta', hfe'⟩
            · have hm2 : loopMeasure incr minA st2 ≤ fuel := by
                rw [loopMeasure] at hm ⊢
                rw [hceil]
                exact measure_pop_le hpop (hceil ▸ hg2C) hm
              exact ih st2 _ _ hnn2 hfe2 h4 hm2 h
            · have h4' : minA + (st.feeEst + incr) ≤ st.totalAdded := by
                rw [hta', hfe'] at h4
                exact not_lt.mp h4
              have harg : st.totalAdded - minA - (st.feeEst + incr) =
                  st.totalAdded - minA - st.feeEst - incr := by ring
              have hstep : gapUnits incr minA st = gapUnits incr minA st2 + 1 := by
                rw [gapUnits, gapUnits, hta', hfe', harg]
                exact toNat_div_step _ _ hincr (by linarith)
              have hm2 : loopMeasure incr minA st2 ≤ fuel := by
                rw [loopMeasure] at hm ⊢
                rw [hceil, hel]
                omega
              exact ih st2 _ _ hnn2 hfe2 h4 hm2 h

/-- C6 (amended): for every call with a positive fee increment and
non-negative credit amounts, the fee-convergence loop terminates — it never
exhausts a fuel budget of
`(#eligible + 1) * (⌊(total_eligible − pay_total)/fee_increment⌋ + 1) + 1`
iterations.  (The claim's tighter bound of `⌈total_in/fee_increment⌉`
iterations does not hold; see the counterexample.) -/
theorem createTx_terminates (env : Env) (eligible : List Credit)
    (outputs : List (String × Amount)) (bsHeight : Int) (incr : Amount)
    (account : Nat) (df : Bool) (fuel : Nat) (hincr : 0 < incr)
    (hnn : ∀ c ∈ eligible, 0 ≤ c.amount)
    (hfuel : (eligible.length + 1) *
        ((creditSum eligible - payListTotal outputs).toNat / incr.toNat + 1) + 1 ≤ fuel) :
    createTx env eligible outputs bsHeight incr account df fuel ≠ .fuelOut := by
  intro h
  have hnns : ∀ c ∈ sortEligible eligible, 0 ≤ c.amount :=
    fun c hc => hnn c (mem_sortEligible hc)
  rw [createTx] at h
  split at h
  · cases h
  · cases h
  · rename_i m0 minAmount heq0
    have hmin : minAmount = payListTotal outputs := by
      have := addOutputs_ok_total heq0
      rw [this]; ring
    split at h
    · cases h
    · cases h
    · rename_i m1 ins1 el1 ta1 heq1
      obtain ⟨hta1, hcons1, hmem1, hlen1⟩ := selectBase_ok_spec heq1
      have hnn1 : ∀ c ∈ el1, 0 ≤ c.amount := fun c hc => hnns c (hmem1 c hc)
      split at h
      · cases h
      · cases h
      · rename_i st heq2
        obtain ⟨hc2, hm2, hg2, hx4, hx5, hx6⟩ :=
          replenish_ok_spec env bsHeight incr df minAmount el1 _ _ _ _ _ _ heq2
        have hnn2 : ∀ c ∈ st.eligible, 0 ≤ c.amount := fun c hc => hnn1 c (hm2 c hc)
        have hfe2 : 0 ≤ st.feeEst := by
          rcases hx5 with h5 | ⟨szx, outsx, insx, h5⟩
          · rw [h5]; exact minimumFee_nonneg hincr _ _ _ _ _
          · rw [h5]; exact minimumFee_nonneg hincr _ _ _ _ _
        have hcs2 : 0 ≤ creditSum st.eligible := creditSum_nonneg _ hnn2
        have hconsv : st.totalAdded + creditSum st.eligible = creditSum eligible := by
          rw [hc2, hcons1, creditSum_sortEligible]; ring
        have hceq : gapCeil incr minAmount st =
            (creditSum eligible - payListTotal outputs).toNat / incr.toNat := by
          rw [gapCeil, hconsv, hmin]
        have hlen2 : st.eligible.length ≤ eligible.length := by
          have hle1 : st.eligible.length ≤ el1.length := by
            rcases hx6 with h6 | h6
            · exact le_of_lt h6
            · rw [h6.1]
          calc st.eligible.length ≤ el1.length := hle1
            _ ≤ (sortEligible eligible).length := hlen1
            _ = eligible.length := sortEligible_length eligible
        have hgC : gapUnits incr minAmount st ≤ gapCeil incr minAmount st := by
          rw [gapUnits, gapCeil]
          exact toNat_div_mono _ _ _ (by linarith)
        have hmeas : loopMeasure incr minAmount st ≤ fuel := by
          rw [loopMeasure]
          rw [← hceq] at hfuel
          exact measure_init_le hlen2 hgC hfuel
        split at h
        · cases h
        · cases h
        · rename_i heq3
          exact convergeLoop_no_fuelOut env bsHeight incr df account minAmount hincr
            fuel st none (-1) hnn2 hfe2 hx4 hmeas heq3
        · rename_i out heqv
          split at h
          · cases h
          · cases h
          · cases h

/-- C6 (amended, witness): the counterexample scenario (eleven credits
totalling 16000 against a 5000 pay-list with increment 1000) terminates
within the proved bound of `12 * 12 + 1 = 145` iterations. -/
theorem createTx_terminates_witness :
    createTx (tstEnv 1106) c6Eligible c6Outputs 11111 1000 0 true 145 ≠ .fuelOut :=
  createTx_terminates (tstEnv 1106) c6Eligible c6Outputs 11111 1000 0 true 145
    (by decide) (by decide) (by decide)

end Stcwallet
